import Mathlib

/-!
Verification of the dynamic port-knocking server core
(`Server/pks/utils.py`, `core.py`, `permissions.py`, `channels.py`,
`commands.py`, `__init__.py`), shallowly embedded in Lean.

Configuration values (`Server/pks/config.py` is not present in the
sources; only its attribute names are referenced by the other modules)
are passed as explicit parameters: `first` / `last` are
`Config.acceptable_port_range[0]` and `Config.acceptable_port_range[-1:][0]`,
`bl` is `Config.ports_blacklist`, and the Telegram white/blacklists are
explicit list parameters.  Machine integers are modelled as `Int`
(Python integers are unbounded).  The `while` loop of
`Utils.filter_port_list` is modelled with explicit fuel, returning
`none` when the fuel runs out; all theorems about its result are stated
either for every fuel or through an existential over fuel.
-/

/-- The condition of the `while` loop in `Utils.filter_port_list`
(`utils.py` line 62): `port in Config.ports_blacklist or
port not in Config.acceptable_port_range`, where the acceptable range
is the inclusive interval from `first` to `last`. -/
def needsAdjust (first last : Int) (bl : List Int) (p : Int) : Prop :=
  p ∈ bl ∨ ¬(first ≤ p ∧ p ≤ last)

instance needsAdjust.instDecidable (first last : Int) (bl : List Int) (p : Int) :
    Decidable (needsAdjust first last bl p) :=
  inferInstanceAs (Decidable (p ∈ bl ∨ ¬(first ≤ p ∧ p ≤ last)))

/-- One iteration of the loop body of `Utils.filter_port_list`
(`utils.py` lines 63-65): `port += 1; if port > last: port = (port % last) + first`.
Python `%` on a positive modulus agrees with `Int.emod`. -/
def probeStep (first last p : Int) : Int :=
  let q := p + 1
  if last < q then q % last + first else q

/-- The full `while` loop of `Utils.filter_port_list` acting on a single
list element, with fuel counting loop iterations. -/
def probe (first last : Int) (bl : List Int) : Nat → Int → Option Int
  | 0, p => if needsAdjust first last bl p then none else some p
  | n + 1, p =>
      if needsAdjust first last bl p then probe first last bl n (probeStep first last p)
      else some p

/-- Models `Utils.filter_port_list` (`utils.py` lines 55-67): each element of the
list is adjusted independently by the `while` loop; the element at index
`i` is the only one read and written during iteration `i`, so the loop
is an index-wise map of `probe`. -/
def filter_port_list (first last : Int) (bl : List Int) (fuel : Nat) :
    List Int → Option (List Int)
  | [] => some []
  | p :: ps =>
      match probe first last bl fuel p, filter_port_list first last bl fuel ps with
      | some r, some rs => some (r :: rs)
      | _, _ => none

/-- Truthiness of the `seed` argument in `Core.generate_new_sequence`
(`core.py` line 23): Python `if seed:` is false for `None` and for `0`. -/
def seedTruthy : Option Int → Bool
  | none => false
  | some s => s != 0

/-- Models `Core.generate_new_sequence` (`core.py` lines 13-44).  `h` models
`lambda z: int(sha256(str(z).encode("utf-8")).hexdigest(), 16)`, the
one-way hash pipeline applied to `i + seed` (an opaque pure function of
its integer input); `rng` models the stream of `randint(first, last)`
draws, one per index.  The produced candidate list is fed to
`Utils.filter_port_list`. -/
def generate_new_sequence (h : Int → Nat) (rng : Nat → Int)
    (first last : Int) (bl : List Int) (fuel : Nat)
    (num : Nat) (seed : Option Int) : Option (List Int) :=
  filter_port_list first last bl fuel
    (if seedTruthy seed then
      (List.range num).map (fun i : Nat => ((h ((i : Int) + seed.getD 0) : Nat) : Int))
    else
      (List.range num).map (fun i => rng i))

/-- Termination predicate: `probe` returns a result from `p`. -/
def Terminates (first last : Int) (bl : List Int) (p : Int) : Prop :=
  ∃ n r, probe first last bl n p = some r

/-- The in-cycle measure: number of loop iterations needed to walk from
`p` forward (with top-of-range wraparound to `first + 1`) to the
acceptable port `q`. -/
def cycleDist (first last q p : Int) : Nat :=
  (if p ≤ q then q - p else (last - p) + (q - first)).toNat

/-! ## Persistent store (`Server/pks/database.py`)

A shelve column of kind `dict` is modelled as an association list in
insertion order.  `Database.update` and `Database.insert_dict` both
perform `cl[key] = value` on a copy of the whole container and write it
back: replace in place when the key is present, append otherwise. -/

/-- Python `cl[key] = value` on an insertion-ordered dict. -/
def dictSet {α : Type} : List (String × α) → String → α → List (String × α)
  | [], k, v => [(k, v)]
  | (k1, v1) :: rest, k, v =>
      if k1 = k then (k, v) :: rest else (k1, v1) :: dictSet rest k v

/-- Python `cl[key]` / `key in cl` on an insertion-ordered dict. -/
def dictLookup {α : Type} : List (String × α) → String → Option α
  | [], _ => none
  | (k1, v1) :: rest, k => if k1 = k then some v1 else dictLookup rest k

/-- Python `list(dict.fromkeys(l))`: remove duplicates keeping the first
occurrence of each element, in order. -/
def dictFromKeys : List String → List String
  | [] => []
  | g :: gs => g :: (dictFromKeys gs).filter (fun x => x ≠ g)

/-! ## Permission engine (`Server/pks/permissions.py`)

The `permissions` table (user id → list of group names) is the only
state.  `Config.telegram_user_whitelist` / `telegram_user_blacklist`
are passed as parameters `wl` / `blk`. -/

/-- The permissions table: `dict` mapping user id to group-name list. -/
abbrev PermDb := List (String × List String)

/-- Models `Permissions.permission_groups` (`permissions.py` lines 15-20). -/
def permission_groups : List (String × List String) :=
  [("guest", []),
   ("member", ["manage_sequences"]),
   ("manager", ["manage_sequences", "modify_bot_behaviour"]),
   ("admin", ["manage_sequences", "modify_bot_behaviour", "admin_access"])]

/-- Models `Permissions.get_valid_groups`. -/
def get_valid_groups : List String := permission_groups.map (fun g => g.1)

/-- Models `Permissions.is_group_valid`. -/
def is_group_valid (g : String) : Bool := get_valid_groups.contains g

/-- Models `PermissionsDatabase.list_groups`: the groups of `u`, or `[]` when
`u` is not in the table. -/
def list_groups (db : PermDb) (u : String) : List String :=
  (dictLookup db u).getD []

/-- Models `PermissionsDatabase.create_user`: `insert_dict({user_id: []})`. -/
def db_create_user (db : PermDb) (u : String) : PermDb := dictSet db u []

/-- Models `PermissionsDatabase.add_user_to_group`: append the group to the
user's list, deduplicate via `dict.fromkeys`, write back. -/
def db_add_user_to_group (db : PermDb) (u g : String) : PermDb :=
  dictSet db u (dictFromKeys (list_groups db u ++ [g]))

/-- Models `PermissionsDatabase.remove_user_from_group`: deduplicate the user's
list via `dict.fromkeys`, then `pop(group)` — which raises `KeyError`
(modelled as `none`) when the group is not there — then write back.
The store is not modified on the error path. -/
def db_remove_user_from_group (db : PermDb) (u g : String) : Option PermDb :=
  if g ∈ dictFromKeys (list_groups db u) then
    some (dictSet db u ((dictFromKeys (list_groups db u)).erase g))
  else none

/-- Models `Permissions.create_user`: create only when the user is absent. -/
def create_user (db : PermDb) (u : String) : PermDb :=
  if (dictLookup db u).isSome then db else db_create_user db u

/-- Models `Permissions.add_user_to_group`: no-op for an invalid group, else
create the user if absent and add the group. -/
def add_user_to_group (db : PermDb) (u g : String) : PermDb :=
  if is_group_valid g then
    db_add_user_to_group (if (dictLookup db u).isSome then db else create_user db u) u g
  else db

/-- Models `Permissions.remove_user_from_group`: no-op for an invalid group,
else delegate to the database operation (which may raise). -/
def remove_user_from_group (db : PermDb) (u g : String) : Option PermDb :=
  if is_group_valid g then db_remove_user_from_group db u g else some db

/-- Models `Permissions.get_groups_permissions` (`permissions.py` lines 81-93):
`["none"]` followed by the permissions of each fixed group the user
belongs to, in table order. -/
def get_groups_permissions (db : PermDb) (u : String) : List String :=
  "none" ::
    permission_groups.flatMap
      (fun gp => if gp.1 ∈ list_groups db u then gp.2 else [])

/-- The permission set of one named group, for the specification-side
reading "union of the permission sets of the user's groups". -/
def groupPermsOf (g : String) : List String :=
  (dictLookup permission_groups g).getD []

/-- Models `Permissions.is_user_allowed` (`permissions.py` lines 95-121). -/
def is_user_allowed (wl blk : List String) (db : PermDb) (u : String)
    (needed : List String) : Bool :=
  if 0 < wl.length ∧ u ∉ wl then false
  else if u ∈ blk then false
  else needed.all (fun p => decide (p ∈ get_groups_permissions db u))

/-- The permission-store mutations reachable through the engine
(`add_user_to_group` / `remove_user_from_group` / `create_user`). -/
inductive PermOp where
  | addGroup (u g : String)
  | removeGroup (u g : String)
  | create (u : String)

/-- Apply one mutation.  A `KeyError` in `remove_user_from_group`
propagates before any write, so the store is unchanged in that case. -/
def apply_perm_op (db : PermDb) : PermOp → PermDb
  | .addGroup u g => add_user_to_group db u g
  | .removeGroup u g => (remove_user_from_group db u g).getD db
  | .create u => create_user db u

/-- The invariant of claim C7: no user's persisted group list contains
duplicates. -/
def NodupGroups (db : PermDb) : Prop := ∀ e ∈ db, (e.2 : List String).Nodup

/-! ## Channel registry (`Server/pks/channels.py`)

The `channels` table: `dict` mapping chat id to its `active` flag. -/

abbrev ChanDb := List (String × Bool)

/-- Models `ChannelsDatabase.channel_exists`. -/
def channel_exists (db : ChanDb) (c : String) : Bool :=
  (dictLookup db c).isSome

/-- Models `ChannelsDatabase.set_active`: `update(column, chat_id, True)`. -/
def chan_set_active (db : ChanDb) (c : String) : ChanDb := dictSet db c true

/-- Models `ChannelsDatabase.add`: `insert_dict({chat_id: True})`. -/
def chan_db_add (db : ChanDb) (c : String) : ChanDb := dictSet db c true

/-- Models `Channels.add` (register): set active when the channel exists, else
create it active. -/
def channels_add (db : ChanDb) (c : String) : ChanDb :=
  if channel_exists db c then chan_set_active db c else chan_db_add db c

/-- Models `Channels.disable` (deactivate): set inactive when the channel
exists, else do nothing. -/
def channels_disable (db : ChanDb) (c : String) : ChanDb :=
  if channel_exists db c then dictSet db c false else db

/-! ## Command router (`Server/pks/__init__.py`, `commands.py`)

`PKS.process` resolves the command token against `commands_l`,
validates the argument count, then calls the handler through its
`permissions_required` decorator.  Handlers whose bodies only drive
external services or threads (start/stop/generate/shutdown/status/help/
`print_config`/`print_broadcast_list`/`list_groups_members`) are
abstracted by an oracle `svc` giving their reply; they do not touch the
two persisted tables.  The handlers that touch the modelled state
(`invalid`, `add_perm`, `remove_perm`, `forget`) are modelled in full. -/

/-- The handlers registered in `PKS.__set_commands`, plus the fallback. -/
inductive CommandId where
  | generateCmd
  | startCmd
  | stopCmd
  | forgetCmd
  | shutdownCmd
  | listGroupsMembersCmd
  | addPermCmd
  | removePermCmd
  | helpCmd
  | invalidCmd
deriving DecidableEq

/-- The names in the `commands_l` dispatch table. -/
def command_names : List String :=
  ["/generate", "/start", "/stop", "/forget", "/shutdown",
   "/list_groups_members", "/add_perm", "/remove_perm", "/help"]

/-- Resolution of a command token against `commands_l`
(`__init__.py` lines 38-58 and 107-110): handler, expected argument
count, pre-bound arguments.  `/forget` is pre-bound to the sending chat
id; `/help` is pre-bound to the (opaque) list of command names.  An
unknown token resolves to the `invalid` handler with expected count 0
and no pre-bound arguments. -/
def resolve_command (cmd chat : String) : CommandId × Nat × List String :=
  if cmd = "/generate" then (.generateCmd, 0, [])
  else if cmd = "/start" then (.startCmd, 0, [])
  else if cmd = "/stop" then (.stopCmd, 0, [])
  else if cmd = "/forget" then (.forgetCmd, 0, [chat])
  else if cmd = "/shutdown" then (.shutdownCmd, 0, [])
  else if cmd = "/list_groups_members" then (.listGroupsMembersCmd, 0, [])
  else if cmd = "/add_perm" then (.addPermCmd, 2, [])
  else if cmd = "/remove_perm" then (.removePermCmd, 2, [])
  else if cmd = "/help" then (.helpCmd, 0, ["keys"])
  else (.invalidCmd, 0, [])

/-- The permission list each handler's `permissions_required` decorator
demands (`commands.py`). -/
def required_perms : CommandId → List String
  | .generateCmd => ["manage_sequences"]
  | .startCmd => ["modify_bot_behaviour"]
  | .stopCmd => ["modify_bot_behaviour"]
  | .forgetCmd => ["modify_bot_behaviour"]
  | .shutdownCmd => ["modify_bot_behaviour", "admin_access"]
  | .listGroupsMembersCmd => ["modify_bot_behaviour"]
  | .addPermCmd => ["modify_bot_behaviour", "admin_access"]
  | .removePermCmd => ["modify_bot_behaviour", "admin_access"]
  | .helpCmd => ["none"]
  | .invalidCmd => ["none"]

/-- The reply of `permissions_required` on denial (`commands.py` line 23). -/
def forbidden_message : String := "Action forbidden ; insufficient rights."

/-- Models `PKS.are_args_valid` (`__init__.py` lines 80-87). -/
def are_args_valid (found expected : Nat) : Bool × Option String :=
  if expected < found then
    (false, some ("Too many arguments: expected " ++ toString expected ++ ", got " ++
      toString found ++ ". Please refer to \"/help\"."))
  else if found < expected then
    (false, some ("Too few arguments: expected " ++ toString expected ++ ", got " ++
      toString found ++ ". Please refer to \"/help\"."))
  else (true, none)

/-- Python `str.split(sep)` for a one-character separator `sep`, on the
character list: splits at every separator occurrence, keeping empty
pieces (so the result is always non-empty). -/
def splitOnChar (sep : Char) : List Char → List (List Char)
  | [] => [[]]
  | c :: cs =>
      match splitOnChar sep cs with
      | [] => [[]]
      | t :: ts => if c = sep then [] :: t :: ts else (c :: t) :: ts

/-- Python `str.split(sep)` for a one-character separator, on strings. -/
def split_string (sep : Char) (s : String) : List String :=
  (splitOnChar sep s.data).map (fun l => String.mk l)

/-- Models `chat_msg = chat_text.split(" ")` (`__init__.py` line 104). -/
def message_tokens (text : String) : List String := split_string ' ' text

/-- The command token: the text before the first `@` of the first
whitespace-delimited token (`__init__.py` line 106):
`chat_msg[0].split("@")[0]`. -/
def command_token (text : String) : String :=
  (split_string '@' ((message_tokens text).headD "")).headD ""

/-- Models `found_args` (`__init__.py` lines 112-118): the number of
whitespace-delimited tokens after the command. -/
def found_args (text : String) : Nat := (message_tokens text).length - 1

/-- One handler invocation, through its `permissions_required`
decorator.  Result: new permissions table, new channels table, reply.
`svc` abstracts the replies of the handlers that only drive external
services and threads; those leave both tables unchanged. -/
def run_handler (svc : CommandId → List String → Option String)
    (wl blk : List String) (db : PermDb) (chan : ChanDb) (user : String) :
    CommandId → List String → Option (PermDb × ChanDb × Option String)
  | .invalidCmd, _ =>
      if is_user_allowed wl blk db user ["none"] then some (db, chan, none)
      else some (db, chan, some forbidden_message)
  | .addPermCmd, [u, g] =>
      if is_user_allowed wl blk db user (required_perms .addPermCmd) then
        (if is_group_valid g then
          some (add_user_to_group db u g, chan,
            some ("User " ++ u ++ " successfully added to group " ++ g ++ " !"))
        else some (db, chan, some ("Group " ++ g ++ " is invalid !")))
      else some (db, chan, some forbidden_message)
  | .removePermCmd, [u, g] =>
      if is_user_allowed wl blk db user (required_perms .removePermCmd) then
        (if is_group_valid g then
          match remove_user_from_group db u g with
          | some db2 =>
              some (db2, chan,
                some ("User " ++ u ++ " successfully removed from group " ++ g ++ " !"))
          | none => none
        else some (db, chan, some ("Group " ++ g ++ " is invalid !")))
      else some (db, chan, some forbidden_message)
  | .forgetCmd, [cid] =>
      if is_user_allowed wl blk db user (required_perms .forgetCmd) then
        some (db, channels_disable chan cid, none)
      else some (db, chan, some forbidden_message)
  | c, args =>
      if is_user_allowed wl blk db user (required_perms c) then
        some (db, chan, svc c args)
      else some (db, chan, some forbidden_message)

/-- Models `PKS.process` (`__init__.py` lines 89-127): register the sending
channel, resolve the command, validate the argument count (returning the
mismatch message without invoking the handler on failure), then invoke
the handler on the pre-bound arguments followed by the message tokens.
`none` models an uncaught Python exception. -/
def process (svc : CommandId → List String → Option String)
    (wl blk : List String) (db : PermDb) (chan : ChanDb)
    (user chat text : String) : Option (PermDb × ChanDb × Option String) :=
  if (are_args_valid (found_args text) (resolve_command (command_token text) chat).2.1).1 then
    run_handler svc wl blk db (channels_add chan chat) user
      (resolve_command (command_token text) chat).1
      ((resolve_command (command_token text) chat).2.2 ++ (message_tokens text).tail)
  else
    some (db, channels_add chan chat,
      (are_args_valid (found_args text) (resolve_command (command_token text) chat).2.1).2)

/-! ## `Commands.print_config` (`commands.py` lines 133-151)

`pks/config.py` is not among the sources, so the attribute surface of
`Config` is taken from the specification and from the attribute reads
the other modules perform; `getattr` abstracts attribute values. -/

/-- Modelled from the spec: the attribute names of the missing `Config`
class (`pks/config.py` is imported by every module but absent from the
sources).  The specification's configuration surface and the attribute
reads in the sources name exactly these; none of them is `"all"`. -/
def config_attributes : List String :=
  ["sequences_length", "acceptable_port_range", "ports_blacklist",
   "network_interface", "target_port", "knockd_config_file",
   "open_sequence", "use_open_sequence", "packet_manager", "server",
   "telegram_token", "telegram_timeout", "telegram_user_admin_list",
   "telegram_user_whitelist", "telegram_user_blacklist"]

/-- Models `Commands.print_config`, parameterized by the attribute-name list
and the attribute-value reader. -/
def print_config (attributes : List String) (getattr : String → String)
    (attr : String) : String :=
  if attr = "help" then
    "Available attributes: all, " ++ String.intercalate ", " attributes
  else if attr ∉ attributes then
    "This attribute does not exist. Use \"/print_config help\" or \"/help\" for more information."
  else if attr = "all" then
    ("Value:\n" ++ String.join (attributes.map getattr)) ++ getattr attr
  else
    "Value:\n" ++ getattr attr




/-- More fuel never changes a successful probe. -/
lemma probe_succ_of_some {first last : Int} {bl : List Int} {n : Nat} {p r : Int}
    (h : probe first last bl n p = some r) : probe first last bl (n + 1) p = some r := by
  induction n generalizing p with
  | zero =>
      by_cases hc : needsAdjust first last bl p
      · simp [probe, hc] at h
      · simpa [probe, hc] using h
  | succ n ih =>
      by_cases hc : needsAdjust first last bl p
      · rw [probe, if_pos hc] at h
        rw [probe, if_pos hc]
        exact ih h
      · rw [probe, if_neg hc] at h
        rw [probe, if_neg hc]
        exact h

lemma probe_mono {first last : Int} {bl : List Int} {n m : Nat} {p r : Int}
    (hnm : n ≤ m) (h : probe first last bl n p = some r) :
    probe first last bl m p = some r := by
  induction m with
  | zero => simpa [Nat.le_zero.mp hnm] using h
  | succ m ih =>
      rcases Nat.lt_or_ge n (m + 1) with hlt | hge
      · exact probe_succ_of_some (ih (Nat.lt_succ_iff.mp hlt))
      · have : n = m + 1 := le_antisymm hnm hge
        simpa [this] using h

/-- Whatever `probe` returns satisfies the negation of the loop condition:
it is inside the acceptable range and outside the blacklist. -/
lemma probe_result_acceptable {first last : Int} {bl : List Int} {n : Nat} {p r : Int}
    (h : probe first last bl n p = some r) :
    first ≤ r ∧ r ≤ last ∧ r ∉ bl := by
  induction n generalizing p with
  | zero =>
      by_cases hc : needsAdjust first last bl p
      · simp [probe, hc] at h
      · rw [probe, if_neg hc] at h
        cases h
        rcases not_or.mp hc with ⟨hmem, hrange⟩
        have hr := not_not.mp hrange
        exact ⟨hr.1, hr.2, hmem⟩
  | succ n ih =>
      by_cases hc : needsAdjust first last bl p
      · rw [probe, if_pos hc] at h
        exact ih h
      · rw [probe, if_neg hc] at h
        cases h
        rcases not_or.mp hc with ⟨hmem, hrange⟩
        have hr := not_not.mp hrange
        exact ⟨hr.1, hr.2, hmem⟩

section Termination

variable {first last q : Int} {bl : List Int}

lemma terminates_of_acceptable (h : ¬ needsAdjust first last bl p) :
    Terminates first last bl p := by
  exact ⟨0, p, by simp [probe, h]⟩

lemma probeStep_of_lt {p : Int} (h : p < last) : probeStep first last p = p + 1 := by
  unfold probeStep
  simp only []
  rw [if_neg (by omega)]

lemma probeStep_last (h3 : 3 ≤ last) : probeStep first last last = first + 1 := by
  unfold probeStep
  simp only []
  rw [if_pos (by omega)]
  have h1 : (last + 1) % last = 1 := by
    have : last + 1 = 1 + last * 1 := by ring
    rw [this, Int.add_mul_emod_self_left]
    exact Int.emod_eq_of_lt (by norm_num) (by omega)
  omega

lemma terminates_of_in_range (hf : 0 < first) (hw : first + 2 ≤ last)
    (hq1 : first + 1 ≤ q) (hq2 : q ≤ last) (hqb : q ∉ bl) :
    ∀ p : Int, first ≤ p → p ≤ last → Terminates first last bl p := by
  have hqok : ¬ needsAdjust first last bl q := by
    unfold needsAdjust
    push_neg
    exact ⟨hqb, by omega, by omega⟩
  intro p hp1 hp2
  generalize hm : cycleDist first last q p = m
  induction m using Nat.strong_induction_on generalizing p with
  | _ m ih =>
      by_cases hc : needsAdjust first last bl p
      · have hpq : p ≠ q := fun h => hqok (h ▸ hc)
        rcases lt_or_eq_of_le hp2 with hlt | heq
        · -- p < last : the step is p + 1, still within the cycle
          have hstep : probeStep first last p = p + 1 := probeStep_of_lt hlt
          have hd : cycleDist first last q (p + 1) < m := by
            subst hm
            unfold cycleDist
            rcases le_or_lt p q with h1 | h1
            · have : p < q := lt_of_le_of_ne h1 hpq
              rw [if_pos h1, if_pos (by omega)]
              omega
            · rw [if_neg (by omega), if_neg (by omega)]
              omega
          rcases ih _ hd (p + 1) (by omega) (by omega) rfl with ⟨n, r, hr⟩
          refine ⟨n + 1, r, ?_⟩
          rw [probe, if_pos hc, hstep]
          exact hr
        · -- p = last : the step wraps to first + 1
          have hstep : probeStep first last p = first + 1 := by
            rw [heq]
            exact probeStep_last (by omega)
          have hql : q < last := lt_of_le_of_ne hq2 (fun h => hpq (heq.trans h.symm))
          have hd : cycleDist first last q (first + 1) < m := by
            subst hm
            unfold cycleDist
            rw [if_pos (by omega), if_neg (by omega)]
            omega
          rcases ih _ hd (first + 1) (by omega) (by omega) rfl with ⟨n, r, hr⟩
          refine ⟨n + 1, r, ?_⟩
          rw [probe, if_pos hc, hstep]
          exact hr
      · exact terminates_of_acceptable hc

lemma terminates_of_le_last (hf : 0 < first) (hw : first + 2 ≤ last)
    (hq1 : first + 1 ≤ q) (hq2 : q ≤ last) (hqb : q ∉ bl) :
    ∀ (k : Nat) (p : Int), p ≤ last → (first - p).toNat ≤ k →
      Terminates first last bl p := by
  intro k
  induction k with
  | zero =>
      intro p hp hk
      exact terminates_of_in_range hf hw hq1 hq2 hqb p (by omega) hp
  | succ k ih =>
      intro p hp hk
      rcases le_or_lt first p with h1 | h1
      · exact terminates_of_in_range hf hw hq1 hq2 hqb p h1 hp
      · have hc : needsAdjust first last bl p := Or.inr (by omega)
        have hstep : probeStep first last p = p + 1 := probeStep_of_lt (by omega)
        rcases ih (p + 1) (by omega) (by omega) with ⟨n, r, hr⟩
        refine ⟨n + 1, r, ?_⟩
        rw [probe, if_pos hc, hstep]
        exact hr

lemma probeStep_descends (hf : 0 < first) (hw : first + 2 ≤ last)
    {p : Int} (hp : last < p) :
    first ≤ probeStep first last p ∧ probeStep first last p ≤ last ∨
      last < probeStep first last p ∧ probeStep first last p ≤ p - 1 := by
  have hlpos : (0 : Int) < last := by omega
  have hstep : probeStep first last p = (p + 1) % last + first := by
    unfold probeStep
    simp only []
    rw [if_pos (by omega)]
  have hnn : 0 ≤ (p + 1) % last := Int.emod_nonneg _ (by omega)
  have hlt : (p + 1) % last < last := Int.emod_lt_of_pos _ hlpos
  rcases le_or_lt (probeStep first last p) last with hle | hgt
  · exact Or.inl ⟨by omega, hle⟩
  · refine Or.inr ⟨hgt, ?_⟩
    -- since last ≤ p + 1, one full modulus is subtracted: (p+1) % last ≤ p + 1 - last
    have hdiv : 1 ≤ (p + 1) / last := by
      rw [Int.le_ediv_iff_mul_le hlpos]
      omega
    have hmul : last * 1 ≤ last * ((p + 1) / last) :=
      mul_le_mul_of_nonneg_left hdiv (by omega)
    have hmod : (p + 1) % last ≤ p + 1 - last := by
      rw [Int.emod_def]
      omega
    omega

lemma terminates_of_gt_last (hf : 0 < first) (hw : first + 2 ≤ last)
    (hq1 : first + 1 ≤ q) (hq2 : q ≤ last) (hqb : q ∉ bl) :
    ∀ (k : Nat) (p : Int), last < p → (p - last).toNat ≤ k →
      Terminates first last bl p := by
  intro k
  induction k with
  | zero =>
      intro p hp hk
      omega
  | succ k ih =>
      intro p hp hk
      have hc : needsAdjust first last bl p := Or.inr (by omega)
      rcases probeStep_descends hf hw hp with ⟨h1, h2⟩ | ⟨h1, h2⟩
      · rcases terminates_of_in_range hf hw hq1 hq2 hqb _ h1 h2 with ⟨n, r, hr⟩
        exact ⟨n + 1, r, by rw [probe, if_pos hc]; exact hr⟩
      · rcases ih (probeStep first last p) h1 (by omega) with ⟨n, r, hr⟩
        exact ⟨n + 1, r, by rw [probe, if_pos hc]; exact hr⟩

/-- Under a sound configuration, `probe` terminates from every integer
starting candidate. -/
lemma probe_terminates (hf : 0 < first) (hw : first + 2 ≤ last)
    (hq1 : first + 1 ≤ q) (hq2 : q ≤ last) (hqb : q ∉ bl) (p : Int) :
    Terminates first last bl p := by
  rcases le_or_lt p last with h | h
  · exact terminates_of_le_last hf hw hq1 hq2 hqb (first - p).toNat p h (le_refl _)
  · exact terminates_of_gt_last hf hw hq1 hq2 hqb (p - last).toNat p h (le_refl _)

end Termination

lemma filter_port_list_mono {first last : Int} {bl : List Int} {n m : Nat}
    {ps out : List Int} (hnm : n ≤ m)
    (h : filter_port_list first last bl n ps = some out) :
    filter_port_list first last bl m ps = some out := by
  induction ps generalizing out with
  | nil => simpa [filter_port_list] using h
  | cons p ps ih =>
      rw [filter_port_list] at h
      rcases hp : probe first last bl n p with _ | r
      · rw [hp] at h
        simp at h
      · rw [hp] at h
        rcases hps : filter_port_list first last bl n ps with _ | rs
        · rw [hps] at h
          simp at h
        · rw [hps] at h
          simp only [] at h
          rw [filter_port_list, probe_mono hnm hp, ih hps]
          exact h

lemma filter_port_list_sound {first last : Int} {bl : List Int} {fuel : Nat}
    {ps out : List Int} (h : filter_port_list first last bl fuel ps = some out) :
    out.length = ps.length ∧ ∀ x ∈ out, first ≤ x ∧ x ≤ last ∧ x ∉ bl := by
  induction ps generalizing out with
  | nil =>
      rw [filter_port_list] at h
      cases h
      simp
  | cons p ps ih =>
      rw [filter_port_list] at h
      rcases hp : probe first last bl fuel p with _ | r
      · rw [hp] at h
        simp at h
      · rw [hp] at h
        rcases hps : filter_port_list first last bl fuel ps with _ | rs
        · rw [hps] at h
          simp at h
        · rw [hps] at h
          simp only [] at h
          cases h
          rcases ih hps with ⟨hlen, hmem⟩
          refine ⟨by simp [hlen], ?_⟩
          intro x hx
          rcases List.mem_cons.mp hx with hx | hx
          · exact hx ▸ probe_result_acceptable hp
          · exact hmem x hx

lemma filter_port_list_total {first last q : Int} {bl : List Int}
    (hf : 0 < first) (hw : first + 2 ≤ last)
    (hq1 : first + 1 ≤ q) (hq2 : q ≤ last) (hqb : q ∉ bl) (ps : List Int) :
    ∃ fuel out, filter_port_list first last bl fuel ps = some out := by
  induction ps with
  | nil => exact ⟨0, [], rfl⟩
  | cons p ps ih =>
      rcases ih with ⟨n, out, hout⟩
      rcases probe_terminates hf hw hq1 hq2 hqb p with ⟨m, r, hr⟩
      refine ⟨max n m, r :: out, ?_⟩
      rw [filter_port_list, probe_mono (Nat.le_max_right n m) hr,
        filter_port_list_mono (Nat.le_max_left n m) hout]

/-- With range `[1000, 1002]` and blacklist `{1001, 1002}`, the loop of
`Utils.filter_port_list` cycles forever between 1001 and 1002: the
wraparound `(port % 1002) + 1000` maps 1003 back to 1001, skipping the
acceptable port 1000. -/
lemma probe_c1_cycle :
    ∀ n : Nat, probe 1000 1002 [1001, 1002] n 1001 = none ∧
      probe 1000 1002 [1001, 1002] n 1002 = none := by
  intro n
  induction n with
  | zero => exact ⟨by decide, by decide⟩
  | succ n ih =>
      constructor
      · rw [probe, if_pos (by decide)]
        have h : probeStep 1000 1002 1001 = 1002 := by decide
        rw [h]
        exact ih.2
      · rw [probe, if_pos (by decide)]
        have h : probeStep 1000 1002 1002 = 1001 := by decide
        rw [h]
        exact ih.1

/-- Claim C1, counterexample: with configured range `[1000, 1002]` and the
finite blacklist `{1001, 1002}`, the range contains the non-blacklisted
value 1000, so the claim's precondition holds; yet on the input list
`[1001]` the filter step never returns (for every amount of fuel the
loop is still running), so no filtered list at all is produced, let alone
one of the same length with every element in range. -/
theorem C1_filter_counterexample :
    ((1000 : Int) ≤ 1000 ∧ (1000 : Int) ≤ 1002 ∧
        (1000 : Int) ∉ ([1001, 1002] : List Int)) ∧
      ∀ fuel : Nat, filter_port_list 1000 1002 [1001, 1002] fuel [1001] = none := by
  refine ⟨⟨by decide, by decide, by decide⟩, ?_⟩
  intro fuel
  rw [filter_port_list, (probe_c1_cycle fuel).1]

/-- Claim C1 (amended): under the strengthened precondition that the
range bounds satisfy `0 < first` and `first + 2 ≤ last` and that some
port strictly above `first` and at most `last` is outside the (finite)
blacklist, the filter step terminates on every input port list and
returns a list of the same length whose every element lies inside the
configured range and outside the blacklist; consequently every sequence
produced by `Core.generate_new_sequence` has the configured length and
every element in range and outside the blacklist.  (The claim's original
precondition — some non-blacklisted value anywhere in `[first, last]` —
is not sufficient, because the wraparound `(port % last) + first` never
revisits `first` itself; see the counterexample.) -/
theorem C1_filter_in_range_and_length (first last q : Int) (bl : List Int)
    (hf : 0 < first) (hw : first + 2 ≤ last)
    (hq1 : first + 1 ≤ q) (hq2 : q ≤ last) (hqb : q ∉ bl) :
    (∀ ps : List Int, ∃ fuel out,
        filter_port_list first last bl fuel ps = some out ∧
          out.length = ps.length ∧ ∀ x ∈ out, first ≤ x ∧ x ≤ last ∧ x ∉ bl) ∧
      (∀ (h : Int → Nat) (rng : Nat → Int) (num : Nat) (seed : Option Int),
        ∃ fuel out,
          generate_new_sequence h rng first last bl fuel num seed = some out ∧
            out.length = num ∧ ∀ x ∈ out, first ≤ x ∧ x ≤ last ∧ x ∉ bl) := by
  have main : ∀ ps : List Int, ∃ fuel out,
      filter_port_list first last bl fuel ps = some out ∧
        out.length = ps.length ∧ ∀ x ∈ out, first ≤ x ∧ x ≤ last ∧ x ∉ bl := by
    intro ps
    rcases filter_port_list_total hf hw hq1 hq2 hqb ps with ⟨fuel, out, hout⟩
    rcases filter_port_list_sound hout with ⟨hlen, hmem⟩
    exact ⟨fuel, out, hout, hlen, hmem⟩
  refine ⟨main, ?_⟩
  intro h rng num seed
  rcases main (if seedTruthy seed then
      (List.range num).map (fun i : Nat => ((h ((i : Int) + seed.getD 0) : Nat) : Int))
    else (List.range num).map (fun i => rng i)) with ⟨fuel, out, hout, hlen, hmem⟩
  refine ⟨fuel, out, ?_, ?_, hmem⟩
  · simp only [generate_new_sequence]
    exact hout
  · rw [hlen]
    split_ifs <;> simp

/-- The filter step relates input and output lists element by element,
in index order: the output is exactly the index-wise probe of the input. -/
lemma filter_port_list_forall2 {first last : Int} {bl : List Int} {fuel : Nat}
    {ps out : List Int} :
    filter_port_list first last bl fuel ps = some out ↔
      List.Forall₂ (fun p r => probe first last bl fuel p = some r) ps out := by
  induction ps generalizing out with
  | nil =>
      constructor
      · intro h
        rw [filter_port_list] at h
        cases h
        exact List.Forall₂.nil
      · intro h
        cases h
        rfl
  | cons p ps ih =>
      constructor
      · intro h
        rw [filter_port_list] at h
        rcases hp : probe first last bl fuel p with _ | r
        · rw [hp] at h
          simp at h
        · rw [hp] at h
          rcases hps : filter_port_list first last bl fuel ps with _ | rs
          · rw [hps] at h
            simp at h
          · rw [hps] at h
            simp only [] at h
            cases h
            exact List.Forall₂.cons hp (ih.mp hps)
      · intro h
        cases h with
        | cons hpr htail =>
            rw [filter_port_list, hpr, ih.mpr htail]

/-- Witness for the amended claim C1, at the concrete configuration
range `[1000, 1010]`, blacklist `{1005, 1006}`, acceptable port 1001. -/
theorem C1_filter_witness :
    ((0 : Int) < 1000 ∧ (1000 : Int) + 2 ≤ 1010 ∧ (1000 : Int) + 1 ≤ 1001 ∧
        (1001 : Int) ≤ 1010 ∧ (1001 : Int) ∉ ([1005, 1006] : List Int)) ∧
      ((∀ ps : List Int, ∃ fuel out,
          filter_port_list 1000 1010 [1005, 1006] fuel ps = some out ∧
            out.length = ps.length ∧
              ∀ x ∈ out, 1000 ≤ x ∧ x ≤ 1010 ∧ x ∉ ([1005, 1006] : List Int)) ∧
        (∀ (h : Int → Nat) (rng : Nat → Int) (num : Nat) (seed : Option Int),
          ∃ fuel out,
            generate_new_sequence h rng 1000 1010 [1005, 1006] fuel num seed = some out ∧
              out.length = num ∧
                ∀ x ∈ out, 1000 ≤ x ∧ x ≤ 1010 ∧ x ∉ ([1005, 1006] : List Int))) :=
  ⟨⟨by decide, by decide, by decide, by decide, by decide⟩,
    C1_filter_in_range_and_length 1000 1010 1001 [1005, 1006]
      (by decide) (by decide) (by decide) (by decide) (by decide)⟩

/-- Claim C6: the filter step processes list elements independently in
index order (the output is the index-wise result of the probe loop on
the input, expressed as `List.Forall₂`); the loop increments a rejected
candidate by 1, and when the increment pushes it above `last` it wraps
it to `(candidate % last) + first`; concretely, with range
`[1000, 1010]` and blacklist `{1005, 1006}`, the unfiltered candidate
1005 becomes 1006 (still blacklisted), then 1007, which is accepted, so
the filtered value is 1007. -/
theorem C6_forward_linear_probe :
    (∀ first last p : Int,
        (p + 1 ≤ last → probeStep first last p = p + 1) ∧
        (last < p + 1 → probeStep first last p = (p + 1) % last + first)) ∧
      (∀ (first last : Int) (bl : List Int) (fuel : Nat) (p : Int),
        (needsAdjust first last bl p →
          probe first last bl (fuel + 1) p =
            probe first last bl fuel (probeStep first last p)) ∧
        (¬ needsAdjust first last bl p →
          probe first last bl (fuel + 1) p = some p)) ∧
      (∀ (first last : Int) (bl : List Int) (fuel : Nat) (ps out : List Int),
        filter_port_list first last bl fuel ps = some out ↔
          List.Forall₂ (fun p r => probe first last bl fuel p = some r) ps out) ∧
      (probeStep 1000 1010 1005 = 1006 ∧
        (1006 : Int) ∈ ([1005, 1006] : List Int) ∧
        probeStep 1000 1010 1006 = 1007 ∧
        ¬ needsAdjust 1000 1010 [1005, 1006] 1007 ∧
        ∀ fuel : Nat,
          filter_port_list 1000 1010 [1005, 1006] (fuel + 2) [1005] = some [1007]) := by
  refine ⟨?_, ?_, ?_, by decide, by decide, by decide, by decide, ?_⟩
  · intro first last p
    constructor
    · intro h
      unfold probeStep
      simp only []
      rw [if_neg (by omega)]
    · intro h
      unfold probeStep
      simp only []
      rw [if_pos (by omega)]
  · intro first last bl fuel p
    constructor
    · intro h
      rw [probe, if_pos h]
    · intro h
      rw [probe, if_neg h]
  · intro first last bl fuel ps out
    exact filter_port_list_forall2
  · intro fuel
    exact filter_port_list_mono (by omega)
      (by decide : filter_port_list 1000 1010 [1005, 1006] 2 [1005] = some [1007])

/-- Witness for claim C6: the general conjuncts applied at the concrete
scenario of the claim. -/
theorem C6_forward_linear_probe_witness :
    probeStep 1000 1010 1004 = 1005 ∧
      probeStep 1000 1010 1010 = (1011 % 1010) + 1000 ∧
      probe 1000 1010 [1005, 1006] 2 1005 = probe 1000 1010 [1005, 1006] 1 1006 ∧
      probe 1000 1010 [1005, 1006] 2 1007 = some 1007 ∧
      filter_port_list 1000 1010 [1005, 1006] 2 [1005] = some [1007] := by
  have h := C6_forward_linear_probe
  refine ⟨(h.1 1000 1010 1004).1 (by decide), (h.1 1000 1010 1010).2 (by decide), ?_, ?_, ?_⟩
  · have h2 := (h.2.1 1000 1010 [1005, 1006] 1 1005).1 (by decide)
    rw [h2, (by decide : probeStep 1000 1010 1005 = 1006)]
  · exact (h.2.1 1000 1010 [1005, 1006] 1 1007).2 (by decide)
  · exact h.2.2.2.2.2.2.2 0

/-- Claim C3 (amended): for every length `num` and every provided
NONZERO seed `s`, the output of `Core.generate_new_sequence` is a
deterministic function of `(num, s)` and the configuration: the random
stream is never consulted, so two calls with different random draws
return identical results.  (The original claim — determinism for every
provided, non-`None` seed — fails at `seed = 0`: Python's `if seed:`
treats `0` as falsy and falls through to the `randint` branch.) -/
theorem C3_seeded_deterministic (h : Int → Nat) (rng1 rng2 : Nat → Int)
    (first last : Int) (bl : List Int) (fuel num : Nat) (s : Int) (hs : s ≠ 0) :
    generate_new_sequence h rng1 first last bl fuel num (some s) =
      generate_new_sequence h rng2 first last bl fuel num (some s) := by
  have ht : seedTruthy (some s) = true := by
    simp [seedTruthy, hs]
  simp only [generate_new_sequence, ht, if_true]

/-- Witness for the amended claim C3 at seed 1. -/
theorem C3_seeded_deterministic_witness :
    (1 : Int) ≠ 0 ∧
      generate_new_sequence (fun z => z.natAbs) (fun _ => 1000) 1000 1010 [] 5 2 (some 1) =
        generate_new_sequence (fun z => z.natAbs) (fun _ => 1001) 1000 1010 [] 5 2 (some 1) :=
  ⟨by decide,
    C3_seeded_deterministic (fun z => z.natAbs) (fun _ => 1000) (fun _ => 1001)
      1000 1010 [] 5 2 1 (by decide)⟩

/-- Claim C3, counterexample: with `seed = 0` — a provided, non-`None`
seed — `Core.generate_new_sequence` takes the `randint` branch
(`if seed:` is false for 0), so two calls whose random draws differ
return different sequences under the same configuration `(num = 1,
range [1000, 1010], empty blacklist)`. -/
theorem C3_seed_zero_counterexample :
    generate_new_sequence (fun z => z.natAbs) (fun _ => 1000) 1000 1010 [] 1 1 (some 0) =
        some [1000] ∧
      generate_new_sequence (fun z => z.natAbs) (fun _ => 1001) 1000 1010 [] 1 1 (some 0) =
        some [1001] ∧
      some [(1000 : Int)] ≠ some [(1001 : Int)] :=
  ⟨by decide, by decide, by decide⟩

/-! ## Dictionary lemmas -/

lemma dictLookup_mem {α : Type} {l : List (String × α)} {k : String} {v : α}
    (h : dictLookup l k = some v) : (k, v) ∈ l := by
  induction l with
  | nil => simp [dictLookup] at h
  | cons e rest ih =>
      rw [dictLookup] at h
      by_cases he : e.1 = k
      · rw [if_pos he] at h
        cases h
        simp [← he]
      · rw [if_neg he] at h
        exact List.mem_cons_of_mem _ (ih h)

lemma dictLookup_dictSet_self {α : Type} (l : List (String × α)) (k : String) (v : α) :
    dictLookup (dictSet l k v) k = some v := by
  induction l with
  | nil => simp [dictSet, dictLookup]
  | cons e rest ih =>
      rw [dictSet]
      by_cases he : e.1 = k
      · rw [if_pos he, dictLookup, if_pos rfl]
      · rw [if_neg he, dictLookup, if_neg he]
        exact ih

lemma dictSet_of_lookup_none {α : Type} {l : List (String × α)} {k : String}
    (h : dictLookup l k = none) (v : α) : dictSet l k v = l ++ [(k, v)] := by
  induction l with
  | nil => rfl
  | cons e rest ih =>
      rw [dictLookup] at h
      by_cases he : e.1 = k
      · rw [if_pos he] at h
        cases h
      · rw [if_neg he] at h
        rw [dictSet, if_neg he, ih h]
        rfl

lemma mem_dictSet {α : Type} {l : List (String × α)} {k : String} {v : α} {e : String × α}
    (h : e ∈ dictSet l k v) : e = (k, v) ∨ e ∈ l := by
  induction l with
  | nil =>
      rw [dictSet] at h
      rcases List.mem_singleton.mp h with rfl
      exact Or.inl rfl
  | cons e1 rest ih =>
      rw [dictSet] at h
      by_cases he : e1.1 = k
      · rw [if_pos he] at h
        rcases List.mem_cons.mp h with rfl | h
        · exact Or.inl rfl
        · exact Or.inr (List.mem_cons_of_mem _ h)
      · rw [if_neg he] at h
        rcases List.mem_cons.mp h with rfl | h
        · exact Or.inr (List.mem_cons_self _ _)
        · rcases ih h with h | h
          · exact Or.inl h
          · exact Or.inr (List.mem_cons_of_mem _ h)

lemma mem_dictFromKeys {l : List String} {x : String} :
    x ∈ dictFromKeys l ↔ x ∈ l := by
  induction l with
  | nil => rfl
  | cons g gs ih =>
      rw [dictFromKeys]
      constructor
      · intro h
        rcases List.mem_cons.mp h with rfl | h
        · exact List.mem_cons_self _ _
        · exact List.mem_cons_of_mem _ (ih.mp (List.mem_of_mem_filter h))
      · intro h
        rcases List.mem_cons.mp h with rfl | h
        · exact List.mem_cons_self _ _
        · by_cases hx : x = g
          · rw [hx]
            exact List.mem_cons_self _ _
          · refine List.mem_cons_of_mem _ (List.mem_filter.mpr ⟨ih.mpr h, ?_⟩)
            simpa using hx

lemma nodup_dictFromKeys (l : List String) : (dictFromKeys l).Nodup := by
  induction l with
  | nil => exact List.nodup_nil
  | cons g gs ih =>
      rw [dictFromKeys]
      refine List.Nodup.cons ?_ (List.Nodup.filter _ ih)
      intro h
      have := List.of_mem_filter h
      simp at this

/-! ## Permission-resolution lemmas -/

lemma groupPermsOf_of_mem {gp : String × List String} (h : gp ∈ permission_groups) :
    groupPermsOf gp.1 = gp.2 := by
  simp only [permission_groups, List.mem_cons, List.not_mem_nil, or_false] at h
  rcases h with rfl | rfl | rfl | rfl <;> decide

lemma mem_get_groups_permissions {db : PermDb} {u : String} {p : String} :
    p ∈ get_groups_permissions db u ↔
      p = "none" ∨ ∃ g ∈ list_groups db u, p ∈ groupPermsOf g := by
  rw [get_groups_permissions, List.mem_cons]
  refine or_congr Iff.rfl ?_
  rw [List.mem_flatMap]
  constructor
  · rintro ⟨gp, hgp, hp⟩
    by_cases hin : gp.1 ∈ list_groups db u
    · rw [if_pos hin] at hp
      exact ⟨gp.1, hin, (groupPermsOf_of_mem hgp) ▸ hp⟩
    · rw [if_neg hin] at hp
      cases hp
  · rintro ⟨g, hg, hp⟩
    rcases hl : dictLookup permission_groups g with _ | v
    · rw [groupPermsOf, hl] at hp
      cases hp
    · refine ⟨(g, v), dictLookup_mem hl, ?_⟩
      rw [if_pos hg]
      rw [groupPermsOf, hl] at hp
      exact hp

/-- Claim C2: `Permissions.is_user_allowed` denies when a non-empty
whitelist omits the user; otherwise denies when the user is blacklisted;
otherwise allows exactly when every needed permission lies in the union
of the permission sets of the user's persisted groups together with
"none".  In particular (under the default empty white/blacklists), a
user with no group memberships — including an unknown user — is allowed
the empty requirement list and denied each of the three real
permissions. -/
theorem C2_allow_characterization :
    (∀ (wl blk : List String) (db : PermDb) (u : String) (ps : List String),
        is_user_allowed wl blk db u ps = true ↔
          ((wl ≠ [] → u ∈ wl) ∧ u ∉ blk ∧
            ∀ p ∈ ps, p = "none" ∨ ∃ g ∈ list_groups db u, p ∈ groupPermsOf g)) ∧
      (∀ (db : PermDb) (u : String), list_groups db u = [] →
        is_user_allowed [] [] db u [] = true ∧
          ∀ p ∈ ["manage_sequences", "modify_bot_behaviour", "admin_access"],
            is_user_allowed [] [] db u [p] = false) := by
  constructor
  · intro wl blk db u ps
    unfold is_user_allowed
    split_ifs with h1 h2
    · simp only [Bool.false_eq_true, false_iff]
      rintro ⟨ha, -, -⟩
      refine h1.2 (ha ?_)
      intro he
      rw [he] at h1
      simp at h1
    · simp only [Bool.false_eq_true, false_iff]
      rintro ⟨-, hb, -⟩
      exact hb h2
    · rw [List.all_eq_true]
      constructor
      · intro h
        refine ⟨?_, h2, ?_⟩
        · intro hne
          by_contra hu
          exact h1 ⟨List.length_pos.mpr hne, hu⟩
        · intro p hp
          have hm := h p hp
          rw [decide_eq_true_iff] at hm
          exact mem_get_groups_permissions.mp hm
      · rintro ⟨-, -, h3⟩ p hp
        rw [decide_eq_true_iff]
        exact mem_get_groups_permissions.mpr (h3 p hp)
  · intro db u hg
    have hgp : get_groups_permissions db u = ["none"] := by
      simp [get_groups_permissions, hg, permission_groups]
    constructor
    · simp [is_user_allowed]
    · intro p hp
      fin_cases hp <;> simp [is_user_allowed, hgp]

/-- Witness for claim C2: the characterization at a member user, and the
no-membership consequences at an unknown user of the empty store. -/
theorem C2_allow_characterization_witness :
    (is_user_allowed ["alice"] [] [("alice", ["member"])] "alice" ["manage_sequences"] = true ↔
        ((["alice"] ≠ ([] : List String) → "alice" ∈ ["alice"]) ∧
          "alice" ∉ ([] : List String) ∧
          ∀ p ∈ ["manage_sequences"], p = "none" ∨
            ∃ g ∈ list_groups [("alice", ["member"])] "alice", p ∈ groupPermsOf g)) ∧
      (is_user_allowed [] [] ([] : PermDb) "bob" [] = true ∧
        ∀ p ∈ ["manage_sequences", "modify_bot_behaviour", "admin_access"],
          is_user_allowed [] [] ([] : PermDb) "bob" [p] = false) :=
  ⟨C2_allow_characterization.1 ["alice"] [] [("alice", ["member"])] "alice" ["manage_sequences"],
    C2_allow_characterization.2 [] "bob" (by decide)⟩

/-- Claim C4, counterexample: "admin" is a valid group, yet removing it
from a user who is not a member — whether the user is absent from the
store or present without that group — raises `KeyError`
(`dict.pop(group)` with no default, `permissions.py` line 200) instead
of returning normally. -/
theorem C4_remove_counterexample :
    is_group_valid "admin" = true ∧
      remove_user_from_group ([] : PermDb) "alice" "admin" = none ∧
      remove_user_from_group [("alice", ["member"])] "alice" "admin" = none :=
  ⟨by decide, by decide, by decide⟩

/-- Claim C4 (amended): `Permissions.remove_user_from_group` is a no-op
returning normally when the group is not in the fixed valid set;
otherwise, when the user is a member of the group it removes the group
from the user's persisted list and returns; but when the user is NOT a
member (including a user absent from the database) the underlying
`dict.pop` raises `KeyError` (modelled as `none`) instead of returning
without error. -/
theorem C4_remove_user_from_group (db : PermDb) (u g : String) :
    (is_group_valid g = false → remove_user_from_group db u g = some db) ∧
      (is_group_valid g = true → g ∈ list_groups db u →
        ∃ db2, remove_user_from_group db u g = some db2 ∧ g ∉ list_groups db2 u) ∧
      (is_group_valid g = true → g ∉ list_groups db u →
        remove_user_from_group db u g = none) := by
  refine ⟨?_, ?_, ?_⟩
  · intro h
    rw [remove_user_from_group, if_neg (by simp [h])]
  · intro hv hm
    rw [remove_user_from_group, if_pos hv, db_remove_user_from_group,
      if_pos (mem_dictFromKeys.mpr hm)]
    refine ⟨_, rfl, ?_⟩
    intro hmem
    rw [list_groups, dictLookup_dictSet_self] at hmem
    have := ((nodup_dictFromKeys (list_groups db u)).mem_erase_iff.mp hmem).1
    exact this rfl
  · intro hv hm
    rw [remove_user_from_group, if_pos hv, db_remove_user_from_group,
      if_neg (fun hc => hm (mem_dictFromKeys.mp hc))]

/-- Witness for the amended claim C4: an invalid group is a silent
no-op, and removing a group the user does hold removes it. -/
theorem C4_remove_user_from_group_witness :
    (is_group_valid "root" = false ∧
        remove_user_from_group [("alice", ["admin", "member"])] "x" "root" =
          some [("alice", ["admin", "member"])]) ∧
      (is_group_valid "admin" = true ∧ "admin" ∈ list_groups [("alice", ["admin", "member"])] "alice" ∧
        ∃ db2, remove_user_from_group [("alice", ["admin", "member"])] "alice" "admin" = some db2 ∧
          "admin" ∉ list_groups db2 "alice") :=
  ⟨⟨by decide, (C4_remove_user_from_group [("alice", ["admin", "member"])] "x" "root").1 (by decide)⟩,
    ⟨by decide, by decide,
      (C4_remove_user_from_group [("alice", ["admin", "member"])] "alice" "admin").2.1
        (by decide) (by decide)⟩⟩

/-! ## Claim C7: no-duplicates invariant of the permission store -/

lemma nodupGroups_dictSet {db : PermDb} {k : String} {v : List String}
    (hdb : NodupGroups db) (hv : v.Nodup) : NodupGroups (dictSet db k v) := by
  intro e he
  rcases mem_dictSet he with rfl | he
  · exact hv
  · exact hdb e he

lemma nodupGroups_create_user {db : PermDb} (hdb : NodupGroups db) (u : String) :
    NodupGroups (create_user db u) := by
  rw [create_user]
  split_ifs
  · exact hdb
  · exact nodupGroups_dictSet hdb List.nodup_nil

/-- Claim C7: each engine-level mutation of the permission store
preserves the invariant that no user's persisted group list contains
duplicates (`add_user_to_group` deduplicates before persisting,
`create_user` writes an empty list, `remove_user_from_group` only
removes entries), and hence every store reachable from the empty store
by a sequence of such mutations satisfies it. -/
theorem C7_nodup_group_lists :
    (∀ (db : PermDb) (op : PermOp), NodupGroups db →
        NodupGroups (apply_perm_op db op)) ∧
      ∀ ops : List PermOp, NodupGroups (ops.foldl apply_perm_op ([] : PermDb)) := by
  have hpres : ∀ (db : PermDb) (op : PermOp), NodupGroups db →
      NodupGroups (apply_perm_op db op) := by
    intro db op hdb
    cases op with
    | create u => exact nodupGroups_create_user hdb u
    | addGroup u g =>
        rw [apply_perm_op, add_user_to_group]
        split_ifs with h1 h2
        · exact nodupGroups_dictSet hdb (nodup_dictFromKeys _)
        · exact nodupGroups_dictSet (nodupGroups_create_user hdb u) (nodup_dictFromKeys _)
        · exact hdb
    | removeGroup u g =>
        rw [apply_perm_op, remove_user_from_group]
        split_ifs with h1
        · rw [db_remove_user_from_group]
          split_ifs with h2
          · exact nodupGroups_dictSet hdb ((nodup_dictFromKeys _).erase g)
          · exact hdb
        · exact hdb
  refine ⟨hpres, ?_⟩
  have hfold : ∀ (ops : List PermOp) (db : PermDb), NodupGroups db →
      NodupGroups (ops.foldl apply_perm_op db) := by
    intro ops
    induction ops with
    | nil => intro db hdb; exact hdb
    | cons op rest ih =>
        intro db hdb
        exact ih (apply_perm_op db op) (hpres db op hdb)
  intro ops
  refine hfold ops [] ?_
  intro e he
  cases he

/-- Witness for claim C7: preservation applied at a concrete store and
mutation, and reachability at a concrete operation sequence. -/
theorem C7_nodup_group_lists_witness :
    NodupGroups (apply_perm_op [("alice", ["member"])] (.addGroup "alice" "admin")) ∧
      NodupGroups
        (([PermOp.create "bob", .addGroup "bob" "admin", .addGroup "bob" "admin",
          .removeGroup "bob" "admin"]).foldl apply_perm_op ([] : PermDb)) :=
  ⟨C7_nodup_group_lists.1 [("alice", ["member"])] (.addGroup "alice" "admin")
      (by intro e he; rcases List.mem_singleton.mp he with rfl; decide),
    C7_nodup_group_lists.2
      [PermOp.create "bob", .addGroup "bob" "admin", .addGroup "bob" "admin",
        .removeGroup "bob" "admin"]⟩

/-! ## Claim C8: channel lifecycle -/

lemma channels_add_eq_dictSet (db : ChanDb) (c : String) :
    channels_add db c = dictSet db c true := by
  rw [channels_add]
  split_ifs <;> rfl

/-- Claim C8: `register(X); deactivate(X); register(X)` leaves `X`
present and active; `register` on an existing channel sets its flag to
true and on an unseen channel appends it active; `deactivate` on a
never-seen channel is a no-op that raises nothing and creates no entry. -/
theorem C8_channel_lifecycle :
    (∀ (db : ChanDb) (c : String),
        dictLookup (channels_add (channels_disable (channels_add db c) c) c) c = some true) ∧
      (∀ (db : ChanDb) (c : String), channel_exists db c = true →
        channels_add db c = chan_set_active db c ∧
          dictLookup (channels_add db c) c = some true) ∧
      (∀ (db : ChanDb) (c : String), channel_exists db c = false →
        channels_add db c = db ++ [(c, true)] ∧
          dictLookup (channels_add db c) c = some true) ∧
      (∀ (db : ChanDb) (c : String), channel_exists db c = false →
        channels_disable db c = db) := by
  refine ⟨?_, ?_, ?_, ?_⟩
  · intro db c
    rw [channels_add_eq_dictSet]
    exact dictLookup_dictSet_self _ _ _
  · intro db c h
    constructor
    · rw [channels_add, if_pos h]
    · rw [channels_add_eq_dictSet]
      exact dictLookup_dictSet_self _ _ _
  · intro db c h
    have hnone : dictLookup db c = none := by
      rw [channel_exists] at h
      rcases hl : dictLookup db c with _ | v
      · rfl
      · rw [hl] at h
        simp at h
    constructor
    · rw [channels_add_eq_dictSet]
      exact dictSet_of_lookup_none hnone true
    · rw [channels_add_eq_dictSet]
      exact dictLookup_dictSet_self _ _ _
  · intro db c h
    rw [channels_disable, if_neg (by simp [h])]

/-- Witness for claim C8, at the empty table and channel id "c1". -/
theorem C8_channel_lifecycle_witness :
    dictLookup (channels_add (channels_disable (channels_add ([] : ChanDb) "c1") "c1") "c1") "c1" =
        some true ∧
      (channel_exists [("c1", false)] "c1" = true ∧
        channels_add [("c1", false)] "c1" = chan_set_active [("c1", false)] "c1" ∧
        dictLookup (channels_add [("c1", false)] "c1") "c1" = some true) ∧
      (channel_exists ([] : ChanDb) "c1" = false ∧
        channels_add ([] : ChanDb) "c1" = [] ++ [("c1", true)] ∧
        channels_disable ([] : ChanDb) "c1" = []) :=
  ⟨C8_channel_lifecycle.1 [] "c1",
    ⟨by decide, C8_channel_lifecycle.2.1 [("c1", false)] "c1" (by decide)⟩,
    ⟨by decide, (C8_channel_lifecycle.2.2.1 [] "c1" (by decide)).1,
      C8_channel_lifecycle.2.2.2 [] "c1" (by decide)⟩⟩

/-! ## Claims C5 and C9: argument-count validation and unknown commands -/

lemma are_args_valid_of_gt {found expected : Nat} (h : expected < found) :
    are_args_valid found expected =
      (false, some ("Too many arguments: expected " ++ toString expected ++ ", got " ++
        toString found ++ ". Please refer to \"/help\".")) := by
  rw [are_args_valid, if_pos h]

lemma are_args_valid_of_lt {found expected : Nat} (h : found < expected) :
    are_args_valid found expected =
      (false, some ("Too few arguments: expected " ++ toString expected ++ ", got " ++
        toString found ++ ". Please refer to \"/help\".")) := by
  rw [are_args_valid, if_neg (by omega), if_pos h]

lemma resolve_command_of_unknown {c : String} (h : c ∉ command_names) (chat : String) :
    resolve_command c chat = (.invalidCmd, 0, []) := by
  simp only [command_names, List.mem_cons, List.not_mem_nil, or_false, not_or] at h
  obtain ⟨h1, h2, h3, h4, h5, h6, h7, h8, h9⟩ := h
  rw [resolve_command, if_neg h1, if_neg h2, if_neg h3, if_neg h4, if_neg h5, if_neg h6,
    if_neg h7, if_neg h8, if_neg h9]

/-- On an argument-count mismatch, `PKS.process` returns the descriptive
message without invoking the handler; the permission store is returned
unchanged, and the only state change is the unconditional channel
registration done for every inbound message. -/
lemma process_of_mismatch (svc : CommandId → List String → Option String)
    (wl blk : List String) (db : PermDb) (chan : ChanDb) (user chat text : String)
    {cmd : CommandId} {expected : Nat} {pre : List String}
    (hres : resolve_command (command_token text) chat = (cmd, expected, pre))
    (hne : found_args text ≠ expected) :
    process svc wl blk db chan user chat text =
      some (db, channels_add chan chat,
        some (if expected < found_args text then
          "Too many arguments: expected " ++ toString expected ++ ", got " ++
            toString (found_args text) ++ ". Please refer to \"/help\"."
        else
          "Too few arguments: expected " ++ toString expected ++ ", got " ++
            toString (found_args text) ++ ". Please refer to \"/help\".")) := by
  rcases Nat.lt_or_ge expected (found_args text) with h | h
  · unfold process
    rw [hres]
    dsimp only
    rw [are_args_valid_of_gt h]
    simp [h]
  · have h2 : found_args text < expected := by omega
    unfold process
    rw [hres]
    dsimp only
    rw [are_args_valid_of_lt h2]
    simp [show ¬ expected < found_args text from by omega]

/-- Claim C5 (amended): for every dispatched message whose token-count
differs from the resolved handler's expected argument count, `process`
returns the "too many/too few arguments" message with the expected and
received counts, does not invoke the handler, and mutates no state
beyond the unconditional registration of the sending channel that
`process` performs for every inbound message before dispatching (the
permission store in particular is returned unchanged, so alice's
persisted group membership is untouched by
`/add_perm alice manager extra`). -/
theorem C5_arg_mismatch (svc : CommandId → List String → Option String)
    (wl blk : List String) (db : PermDb) (chan : ChanDb) (user chat text : String)
    (cmd : CommandId) (expected : Nat) (pre : List String)
    (hres : resolve_command (command_token text) chat = (cmd, expected, pre))
    (hne : found_args text ≠ expected) :
    process svc wl blk db chan user chat text =
      some (db, channels_add chan chat,
        some (if expected < found_args text then
          "Too many arguments: expected " ++ toString expected ++ ", got " ++
            toString (found_args text) ++ ". Please refer to \"/help\"."
        else
          "Too few arguments: expected " ++ toString expected ++ ", got " ++
            toString (found_args text) ++ ". Please refer to \"/help\".")) :=
  process_of_mismatch svc wl blk db chan user chat text hres hne

/-- Witness for the amended claim C5: dispatching
`/add_perm alice manager extra` (3 found tokens, 2 expected) returns the
"too many arguments" message, and alice's persisted group membership is
unchanged. -/
theorem C5_arg_mismatch_witness :
    process (fun _ _ => none) [] [] [("alice", ["member"])] [("c1", true)] "boss" "c1"
        "/add_perm alice manager extra" =
      some ([("alice", ["member"])], channels_add [("c1", true)] "c1",
        some "Too many arguments: expected 2, got 3. Please refer to \"/help\".") ∧
      list_groups [("alice", ["member"])] "alice" = ["member"] := by
  constructor
  · rw [C5_arg_mismatch (fun _ _ => none) [] [] [("alice", ["member"])] [("c1", true)]
      "boss" "c1" "/add_perm alice manager extra" .addPermCmd 2 [] (by decide) (by decide)]
    rfl
  · decide

/-- Claim C5, counterexample to "mutates no state": an argument-count
mismatch on a message from a never-seen chat id still adds that channel
to the persisted channels table (`self.chan.add(chat_id)` runs before
the argument check, `__init__.py` line 98), so the dispatch of a
mismatched message does mutate state. -/
theorem C5_state_counterexample :
    process (fun _ _ => none) [] [] [] [] "boss" "c9" "/add_perm alice manager extra" =
        some ([], [("c9", true)],
          some "Too many arguments: expected 2, got 3. Please refer to \"/help\".") ∧
      ([("c9", true)] : ChanDb) ≠ [] := by
  constructor
  · decide
  · decide

/-- Claim C9 (amended): a message whose command token is not in the
command table resolves to the fixed `invalid` handler with
expected-argument-count 0 and no pre-bound arguments, but it produces no
reply only when the message has no trailing tokens and the caller passes
the whitelist/blacklist screen: with no trailing tokens the reply is
`none` if the caller is allowed `["none"]` and the fixed forbidden
message otherwise, and with one or more trailing tokens the
argument-count check fires first and replies "Too many arguments". -/
theorem C9_unknown_command (svc : CommandId → List String → Option String)
    (wl blk : List String) (db : PermDb) (chan : ChanDb) (user chat text : String)
    (hunk : command_token text ∉ command_names) :
    resolve_command (command_token text) chat = (.invalidCmd, 0, []) ∧
      (found_args text = 0 →
        process svc wl blk db chan user chat text =
          some (db, channels_add chan chat,
            if is_user_allowed wl blk db user ["none"] then none
            else some forbidden_message)) ∧
      (0 < found_args text →
        process svc wl blk db chan user chat text =
          some (db, channels_add chan chat,
            some ("Too many arguments: expected 0, got " ++ toString (found_args text) ++
              ". Please refer to \"/help\"."))) := by
  have hres := resolve_command_of_unknown hunk chat
  refine ⟨hres, ?_, ?_⟩
  · intro h0
    unfold process
    rw [hres, h0]
    dsimp only
    rw [show are_args_valid 0 0 = (true, none) from rfl]
    dsimp only
    rw [if_pos rfl]
    rw [run_handler]
    split_ifs <;> rfl
  · intro hpos
    have h := process_of_mismatch svc wl blk db chan user chat text hres (by omega)
    rw [h, if_pos hpos]
    rfl

/-- Witness for the amended claim C9: `/foo` from an allowed user gets
no reply; the hypotheses are discharged at the concrete message. -/
theorem C9_unknown_command_witness :
    process (fun _ _ => none) [] [] [] [] "7" "c1" "/foo" =
      some ([], [("c1", true)], none) := by
  have h := (C9_unknown_command (fun _ _ => none) [] [] [] [] "7" "c1" "/foo"
    (by decide)).2.1 (by decide)
  rw [h]
  decide

/-- Claim C9, counterexample to "no reply for every number of trailing
tokens": the unknown command `/foo bar` carries one trailing token, the
resolved `invalid` entry expects 0 arguments, so the sender receives the
"Too many arguments" reply. -/
theorem C9_unknown_command_counterexample :
    process (fun _ _ => none) [] [] [] [] "7" "c1" "/foo bar" =
        some ([], [("c1", true)],
          some "Too many arguments: expected 0, got 1. Please refer to \"/help\".") ∧
      some "Too many arguments: expected 0, got 1. Please refer to \"/help\"." ≠
        (none : Option String) := by
  constructor
  · decide
  · decide

/-! ## Claim C10: `print_config all` -/

/-- Claim C10: "all" is not among `Config`'s attribute names, so
`print_config("all")` returns the fixed "does not exist" message — the
membership check precedes the all-attributes branch — and never the
enumeration of all configuration values; this holds for every
attribute-value reader and for every attribute list not containing
"all". -/
theorem C10_print_config_all :
    ("all" ∉ config_attributes) ∧
      (∀ getattr : String → String,
        print_config config_attributes getattr "all" =
          "This attribute does not exist. Use \"/print_config help\" or \"/help\" for more information.") ∧
      (∀ (attrs : List String) (getattr : String → String), "all" ∉ attrs →
        print_config attrs getattr "all" =
          "This attribute does not exist. Use \"/print_config help\" or \"/help\" for more information.") := by
  have hgen : ∀ (attrs : List String) (getattr : String → String), "all" ∉ attrs →
      print_config attrs getattr "all" =
        "This attribute does not exist. Use \"/print_config help\" or \"/help\" for more information." := by
    intro attrs getattr h
    rw [print_config, if_neg (by decide), if_pos h]
  exact ⟨by decide, fun getattr => hgen config_attributes getattr (by decide), hgen⟩

/-- Witness for claim C10 at a concrete attribute list and reader. -/
theorem C10_print_config_all_witness :
    ("all" ∉ ["target_port", "ports_blacklist"]) ∧
      print_config ["target_port", "ports_blacklist"] (fun _ => "22") "all" =
        "This attribute does not exist. Use \"/print_config help\" or \"/help\" for more information." :=
  ⟨by decide,
    C10_print_config_all.2.2 ["target_port", "ports_blacklist"] (fun _ => "22") (by decide)⟩
